import Mathlib

/-!
Verification of the bidirectional synchronization engine of
`microsoft-todo-mcp-server`: phase/status mapping, the idempotency guard
(issue-link embedding and detection), webhook signature verification,
structural mapping resolution, token lifecycle, and the two webhook handlers.

Text is modelled as `List Char`; the network (Microsoft Graph, GitHub,
the OAuth token endpoint) is modelled as explicit state threaded through
the handlers, with every outbound call recorded in an effect trace.
-/

namespace TodoMcp

/-- Text, modelled as a list of characters. -/
abbrev Str := List Char

/-- Coerce a Lean string literal into the `Str` model. -/
def lc (s : String) : Str := s.toList

-- ── src/integrity/types.ts ───────────────────────────────────────────────────

/-- The four phases of the SMART goal lifecycle (`enum SmartGoalPhase`). -/
inductive SmartGoalPhase where
  | plan
  | track
  | complete
  | archive
deriving DecidableEq, Repr

/-- Table `PHASE_TO_TODO_STATUS`: the Microsoft To Do task status string for each
SMART goal phase (`types.ts`). -/
def PHASE_TO_TODO_STATUS : SmartGoalPhase → Str
  | .plan => lc "notStarted"
  | .track => lc "inProgress"
  | .complete => lc "completed"
  | .archive => lc "completed"

/-- Table `PHASE_TO_GITHUB_STATE`: the GitHub issue state for each SMART goal
phase (`types.ts`). -/
def PHASE_TO_GITHUB_STATE : SmartGoalPhase → Str
  | .plan => lc "open"
  | .track => lc "open"
  | .complete => lc "closed"
  | .archive => lc "closed"

/-- Type `GitHubIssueAction`: the GitHub issue actions carrying sync significance. -/
inductive GitHubIssueAction where
  | opened
  | closed
  | reopened
deriving DecidableEq, Repr

-- ── src/integrity/sync.ts ────────────────────────────────────────────────────

/-- Function `githubActionToGoalPhase` (`sync.ts`): opened/reopened → Plan,
closed → Complete. -/
def githubActionToGoalPhase : GitHubIssueAction → SmartGoalPhase
  | .opened => .plan
  | .reopened => .plan
  | .closed => .complete

/-- Function `githubActionToTodoStatus` (`sync.ts`): the To Do status string for a
GitHub issue action, via the phase table. -/
def githubActionToTodoStatus (action : GitHubIssueAction) : Str :=
  PHASE_TO_TODO_STATUS (githubActionToGoalPhase action)

/-- Constant `ISSUE_LINK_MARKER` (`sync.ts`). -/
def ISSUE_LINK_MARKER : Str := lc "GitHub Issue:"

/-- JavaScript string truthiness: the empty string is falsy. -/
def strTruthy (s : Str) : Bool := !s.isEmpty

/-- JavaScript `String.prototype.trim` (ASCII whitespace suffices here). -/
def trimStr (s : Str) : Str :=
  (s.dropWhile Char.isWhitespace).reverse.dropWhile Char.isWhitespace |>.reverse

/-- Function `buildTaskBodyFromIssue` (`sync.ts`): body of a To Do task created from a
GitHub issue, with the issue URL under the standard marker. -/
def buildTaskBodyFromIssue (issueUrl : Str) (issueBody : Option Str) : Str :=
  let content := trimStr (issueBody.getD [])
  if strTruthy content then
    ISSUE_LINK_MARKER ++ lc " " ++ issueUrl ++ lc "\n\n" ++ content
  else
    ISSUE_LINK_MARKER ++ lc " " ++ issueUrl

/-- Function `buildIssueBodyFromTask` (`sync.ts`): body of a GitHub issue created from
a To Do task, with a provenance footer. -/
def buildIssueBodyFromTask (taskBody : Option Str) : Str :=
  let content := trimStr (taskBody.getD [])
  if strTruthy content then
    content ++ lc "\n\n---\n*Created from Microsoft To Do task*"
  else
    lc "*Created from Microsoft To Do task*"

/-- Function `appendIssueLink` (`sync.ts`): append the marker and issue URL to an
existing task body, never overwriting prior content. -/
def appendIssueLink (existingBody : Str) (issueUrl : Str) : Str :=
  if strTruthy existingBody then
    existingBody ++ lc "\n\n" ++ ISSUE_LINK_MARKER ++ lc " " ++ issueUrl
  else
    ISSUE_LINK_MARKER ++ lc " " ++ issueUrl

-- ── The GitHub issue URL pattern (`GITHUB_ISSUE_URL_PATTERN`, sync.ts) ───────

/-- Drop a literal prefix from a character list, or fail. -/
def dropLit : Str → Str → Option Str
  | [], rest => some rest
  | _ :: _, [] => none
  | p :: ps, c :: cs => if p = c then dropLit ps cs else none

/-- Consume one `[^/]+/` group of the pattern: a nonempty run of non-slash
characters followed by a literal `/`; return the remainder.  Because `[^/]`
cannot match `/` and the next pattern atom is the literal `/`, the
backtracking regex admits exactly this one decomposition. -/
def dropSeg (s : Str) : Option Str :=
  if (s.takeWhile (fun c => c ≠ '/')).isEmpty then none
  else
    match s.dropWhile (fun c => c ≠ '/') with
    | c :: rest' => if c = '/' then some rest' else none
    | [] => none

/-- The final `\d+` atom: at least one digit must follow (nothing after the
digits is required, so one digit suffices for a match). -/
def headDigit : Option Str → Bool
  | some (c :: _) => c.isDigit
  | _ => false

/-- Whether the regex `https:\/\/github\.com\/[^/]+\/[^/]+\/issues\/\d+`
matches at the very start of `s`. -/
def issueUrlAt (s : Str) : Bool :=
  headDigit ((((dropLit (lc "https://github.com/") s).bind dropSeg).bind dropSeg).bind
    (dropLit (lc "issues/")))

/-- Whether the pattern matches at some position of `s` — the semantics of
`RegExp.prototype.test` for an unanchored pattern. -/
def containsIssueUrl : Str → Bool
  | [] => issueUrlAt []
  | s@(_ :: rest) => issueUrlAt s || containsIssueUrl rest

/-- Function `hasGitHubIssueLink` (`sync.ts`): true when the task body already
contains a GitHub issue URL (note: the marker is *not* part of the
pattern). -/
def hasGitHubIssueLink (bodyContent : Str) : Bool :=
  containsIssueUrl bodyContent

end TodoMcp

namespace TodoMcp

-- ── HMAC-SHA256 (the `createHmac("sha256", …)` primitive from node:crypto,
--    per FIPS 180-4 and RFC 2104; 32-bit words are Nat values < 2^32) ─────────

/-- Addition modulo 2^32. -/
def add32 (a b : Nat) : Nat := (a + b) % 4294967296

/-- Right rotation of a 32-bit word. -/
def rotr (n x : Nat) : Nat := ((x >>> n) ||| (x <<< (32 - n))) % 4294967296

/-- Logical right shift. -/
def shr (n x : Nat) : Nat := x >>> n

/-- Three-way xor. -/
def xor3 (a b c : Nat) : Nat := (a ^^^ b) ^^^ c

/-- The 64 SHA-256 round constants. -/
def shaK : List Nat :=
  [1116352408, 1899447441, 3049323471, 3921009573, 961987163,
   1508970993, 2453635748, 2870763221, 3624381080, 310598401,
   607225278, 1426881987, 1925078388, 2162078206, 2614888103,
   3248222580, 3835390401, 4022224774, 264347078, 604807628,
   770255983, 1249150122, 1555081692, 1996064986, 2554220882,
   2821834349, 2952996808, 3210313671, 3336571891, 3584528711,
   113926993, 338241895, 666307205, 773529912, 1294757372,
   1396182291, 1695183700, 1986661051, 2177026350, 2456956037,
   2730485921, 2820302411, 3259730800, 3345764771, 3516065817,
   3600352804, 4094571909, 275423344, 430227734, 506948616,
   659060556, 883997877, 958139571, 1322822218, 1537002063,
   1747873779, 1955562222, 2024104815, 2227730452, 2361852424,
   2428436474, 2756734187, 3204031479, 3329325298]

/-- The eight SHA-256 working variables. -/
structure S8 where
  a : Nat
  b : Nat
  c : Nat
  d : Nat
  e : Nat
  f : Nat
  g : Nat
  h : Nat

/-- The SHA-256 initial hash value. -/
def shaH0 : S8 :=
  ⟨1779033703, 3144134277, 1013904242, 2773480762, 1359893119, 2600822924, 528734635, 1541459225⟩

/-- The SHA-256 choice function. -/
def chF (e f g : Nat) : Nat := (e &&& f) ^^^ ((e ^^^ 4294967295) &&& g)

/-- The SHA-256 majority function. -/
def majF (a b c : Nat) : Nat := ((a &&& b) ^^^ (a &&& c)) ^^^ (b &&& c)

/-- Big sigma-0. -/
def bigS0 (a : Nat) : Nat := xor3 (rotr 2 a) (rotr 13 a) (rotr 22 a)

/-- Big sigma-1. -/
def bigS1 (e : Nat) : Nat := xor3 (rotr 6 e) (rotr 11 e) (rotr 25 e)

/-- Small sigma-0. -/
def smallS0 (x : Nat) : Nat := xor3 (rotr 7 x) (rotr 18 x) (shr 3 x)

/-- Small sigma-1. -/
def smallS1 (x : Nat) : Nat := xor3 (rotr 17 x) (rotr 19 x) (shr 10 x)

/-- Extend the 16 block words to the 64-word message schedule. -/
def extendSchedule : Nat → List Nat → List Nat
  | 0, ws => ws
  | n + 1, ws =>
    let i := ws.length
    let w := add32 (add32 (smallS1 (ws.getD (i - 2) 0)) (ws.getD (i - 7) 0))
                   (add32 (smallS0 (ws.getD (i - 15) 0)) (ws.getD (i - 16) 0))
    extendSchedule n (ws ++ [w])

/-- One SHA-256 round. -/
def shaRound (s : S8) (kw : Nat × Nat) : S8 :=
  let t1 := add32 s.h (add32 (bigS1 s.e) (add32 (chF s.e s.f s.g) (add32 kw.1 kw.2)))
  let t2 := add32 (bigS0 s.a) (majF s.a s.b s.c)
  ⟨add32 t1 t2, s.a, s.b, s.c, add32 s.d t1, s.e, s.f, s.g⟩

/-- The SHA-256 compression function on one 16-word block. -/
def compress (h : S8) (block : List Nat) : S8 :=
  let ws := extendSchedule 48 block
  let s := (shaK.zip ws).foldl shaRound h
  ⟨add32 h.a s.a, add32 h.b s.b, add32 h.c s.c, add32 h.d s.d,
   add32 h.e s.e, add32 h.f s.f, add32 h.g s.g, add32 h.h s.h⟩

/-- A 64-bit big-endian length field, as 8 bytes. -/
def lenBytes64 (bits : Nat) : List Nat :=
  [bits >>> 56 % 256, bits >>> 48 % 256, bits >>> 40 % 256, bits >>> 32 % 256,
   bits >>> 24 % 256, bits >>> 16 % 256, bits >>> 8 % 256, bits % 256]

/-- SHA-256 padding: 0x80, zeros to 56 mod 64, then the bit length. -/
def padMessage (msg : List Nat) : List Nat :=
  let l := msg.length
  let zeros := (120 - (l + 1) % 64) % 64
  msg ++ [0x80] ++ List.replicate zeros 0 ++ lenBytes64 (8 * l)

/-- Group bytes into 32-bit big-endian words. -/
def bytesToWords : List Nat → List Nat
  | b0 :: b1 :: b2 :: b3 :: rest =>
    (((b0 * 256 + b1) * 256 + b2) * 256 + b3) :: bytesToWords rest
  | _ => []

/-- Split a word list into 16-word blocks (fuel-bounded recursion). -/
def toBlocksFuel : Nat → List Nat → List (List Nat)
  | 0, _ => []
  | _, [] => []
  | fuel + 1, ws => ws.take 16 :: toBlocksFuel fuel (ws.drop 16)

/-- The four big-endian bytes of a 32-bit word. -/
def wordBytes (w : Nat) : List Nat :=
  [w >>> 24 % 256, w >>> 16 % 256, w >>> 8 % 256, w % 256]

/-- SHA-256 of a byte sequence, as 32 digest bytes. -/
def sha256 (msg : List Nat) : List Nat :=
  let ws := bytesToWords (padMessage msg)
  let blocks := toBlocksFuel ws.length ws
  let s := blocks.foldl compress shaH0
  wordBytes s.a ++ wordBytes s.b ++ wordBytes s.c ++ wordBytes s.d ++
  wordBytes s.e ++ wordBytes s.f ++ wordBytes s.g ++ wordBytes s.h

/-- HMAC-SHA256 (RFC 2104) of a message under a key, as 32 digest bytes. -/
def hmacSha256 (key msg : List Nat) : List Nat :=
  let k0 := if 64 < key.length then sha256 key else key
  let kpad := k0 ++ List.replicate (64 - k0.length) 0
  let ipadded := kpad.map (fun b => b ^^^ 0x36)
  let opadded := kpad.map (fun b => b ^^^ 0x5c)
  sha256 (opadded ++ sha256 (ipadded ++ msg))

/-- Lowercase hexadecimal digit. -/
def hexDigit (n : Nat) : Char :=
  if n < 10 then Char.ofNat (48 + n) else Char.ofNat (87 + n)

/-- Lowercase hexadecimal rendering of a byte sequence, two digits per byte —
the `digest("hex")` output format. -/
def bytesToHex (bs : List Nat) : Str :=
  bs.flatMap (fun b => [hexDigit (b / 16), hexDigit (b % 16)])

/-- Bytes of a text value (the inputs in question are ASCII, where UTF-8
bytes and character codes coincide). -/
def strBytes (s : Str) : List Nat := s.map Char.toNat

/-- Lowercase hex HMAC-SHA256 of a text body under a text secret — the value
of `createHmac("sha256", secret).update(rawBody).digest("hex")`. -/
def hmacHex (secret rawBody : Str) : Str :=
  bytesToHex (hmacSha256 (strBytes secret) (strBytes rawBody))

-- ── verifySignature (github-webhook.ts) ──────────────────────────────────────

/-- Model of `timingSafeEqual(Buffer.from(a), Buffer.from(b))` wrapped in the
source's try/catch: the call throws on differing lengths (caught → `false`),
otherwise compares contents. -/
def timingSafeEqualCaught (a b : Str) : Bool :=
  if a.length = b.length then a == b else false

/-- Function `verifySignature` (`github-webhook.ts`): check the
`x-hub-signature-256` header (absent header modelled as `none`) against
`sha256=` + the hex HMAC of the raw body under the webhook secret. -/
def verifySignature (secret rawBody : Str) (sigHeader : Option Str) : Bool :=
  match sigHeader with
  | none => false
  | some h =>
    if (lc "sha256=").isPrefixOf h then
      timingSafeEqualCaught (lc "sha256=" ++ hmacHex secret rawBody) h
    else false

end TodoMcp

namespace TodoMcp

-- ── The Microsoft Graph To Do service, modelled as explicit state ────────────

/-- A To Do task, as the fields the sync engine reads: `body` models
`task.body?.content ?? ""`. -/
structure TaskEntry where
  id : Str
  title : Str
  body : Str
  status : Str
deriving DecidableEq, Repr

/-- A To Do task list; `groupId` is its parent list group, when any. -/
structure TaskListE where
  id : Str
  displayName : Str
  groupId : Option Str
  tasks : List TaskEntry
deriving DecidableEq, Repr

/-- A To Do list group (`listGroups` in the Graph beta API). -/
structure ListGroup where
  id : Str
  displayName : Str
deriving DecidableEq, Repr

/-- The state of the user's To Do data held by Microsoft Graph.
`freshListId` / `freshTaskId` are the ids the service will assign to the
next created list / task. -/
structure TodoState where
  groups : List ListGroup
  lists : List TaskListE
  freshListId : Str
  freshTaskId : Str
deriving DecidableEq, Repr

/-- Every outbound call a webhook handler makes, recorded for the trace. -/
inductive Effect where
  | parseBody
  | getListGroups
  | getGroupLists (groupId : Str)
  | createList (groupId : Str) (displayName : Str)
  | getLists
  | getTasks (listId : Str)
  | createTask (listId : Str) (title : Str) (body : Str)
  | patchTaskStatus (listId : Str) (taskId : Str) (status : Str)
  | fetchTask (resource : Str)
  | getList (listId : Str)
  | getListGroup (groupId : Str)
  | createIssue (owner : Str) (repo : Str) (title : Str) (body : Str)
  | patchTaskBody (listId : Str) (taskId : Str) (body : Str)
deriving DecidableEq, Repr

/-- Lists belonging to a group — the `listGroups/{id}/lists` resource. -/
def groupLists (st : TodoState) (gid : Str) : List TaskListE :=
  st.lists.filter (fun l => l.groupId == some gid)

/-- Function `findOrCreateListForRepo` (`github-webhook.ts`): find the list
group named `owner`; inside it find the list named `repo`, creating it when
absent.  Returns the list id (or `null`), the updated service state, and the
trace of Graph calls. -/
def findOrCreateListForRepo (st : TodoState) (owner repo : Str) :
    Option Str × TodoState × List Effect :=
  match st.groups.find? (fun g => g.displayName == owner) with
  | none => (none, st, [.getListGroups])
  | some g =>
    match (groupLists st g.id).find? (fun l => l.displayName == repo) with
    | some existing => (some existing.id, st, [.getListGroups, .getGroupLists g.id])
    | none =>
      let newList : TaskListE := ⟨st.freshListId, repo, some g.id, []⟩
      (some newList.id,
       { st with lists := st.lists ++ [newList] },
       [.getListGroups, .getGroupLists g.id, .createList g.id repo])

/-- JavaScript `String.prototype.includes`: the needle occurs at some
position of the haystack. -/
def containsSub : Str → Str → Bool
  | [], needle => needle.isEmpty
  | c :: t, needle => needle.isPrefixOf (c :: t) || containsSub t needle

/-- Scan the lists in order for a non-completed task whose body contains the
issue URL (the helper loop of `findLinkedTask`). -/
def findLinkedTaskGo (issueUrl : Str) : List TaskListE → Option (Str × Str) × List Effect
  | [] => (none, [])
  | l :: rest =>
    match (l.tasks.filter (fun t => !(t.status == lc "completed"))).find?
        (fun t => containsSub t.body issueUrl) with
    | some t => (some (l.id, t.id), [.getTasks l.id])
    | none =>
      ((findLinkedTaskGo issueUrl rest).1,
       .getTasks l.id :: (findLinkedTaskGo issueUrl rest).2)

/-- Function `findLinkedTask` (`github-webhook.ts`): find a To Do task whose
body contains a link to the given GitHub issue URL, scanning all lists and
their non-completed tasks. -/
def findLinkedTask (st : TodoState) (issueUrl : Str) :
    Option (Str × Str) × List Effect :=
  ((findLinkedTaskGo issueUrl st.lists).1,
   .getLists :: (findLinkedTaskGo issueUrl st.lists).2)

-- ── The GitHub webhook handler (github-webhook.ts) ───────────────────────────

/-- The `issue` object of a GitHub issues event payload. -/
structure Issue where
  number : Nat
  title : Str
  htmlUrl : Str
  body : Option Str
deriving DecidableEq, Repr

/-- The optional `repository` object of the payload. -/
structure RepoInfo where
  name : Option Str
  ownerLogin : Option Str
deriving DecidableEq, Repr

/-- A parsed GitHub webhook payload. -/
structure GHPayload where
  action : Str
  issue : Issue
  repository : Option RepoInfo
deriving DecidableEq, Repr

/-- An inbound HTTP request to the GitHub webhook endpoint. -/
structure GHRequest where
  rawBody : Str
  sigHeader : Option Str
  eventHeader : Option Str
deriving DecidableEq, Repr

/-- The app settings the GitHub webhook handler reads. -/
structure GHEnv where
  webhookSecret : Option Str
deriving DecidableEq, Repr

/-- An `HttpResponseInit` value: status, body, and content type header. -/
structure HttpResponseInit where
  status : Nat
  body : Option Str
  contentType : Option Str
deriving DecidableEq, Repr

/-- JavaScript truthiness of an optional string (`undefined` and `""` are
falsy). -/
def optTruthy : Option Str → Bool
  | none => false
  | some s => strTruthy s

/-- Add a newly created task to a list (the Graph side of the `POST …/tasks`
call; Graph assigns `freshTaskId` and the default `notStarted` status). -/
def addTask (st : TodoState) (listId : Str) (title body : Str) : TodoState :=
  { st with
    lists := st.lists.map (fun l =>
      if l.id == listId then
        { l with tasks := l.tasks ++ [⟨st.freshTaskId, title, body, lc "notStarted"⟩] }
      else l) }

/-- Set the status of a task (the Graph side of the status `PATCH`). -/
def setTaskStatus (st : TodoState) (listId taskId status : Str) : TodoState :=
  { st with
    lists := st.lists.map (fun l =>
      if l.id == listId then
        { l with tasks := l.tasks.map (fun t =>
            if t.id == taskId then { t with status := status } else t) }
      else l) }

/-- Function `githubWebhookHandler` (`github-webhook.ts`): verify the HMAC
signature, parse the payload (`parse` models `JSON.parse` on the raw body),
and apply one transition.  Returns the HTTP response, the updated Graph
state, and the trace of outbound calls. -/
def githubWebhookHandler (env : GHEnv) (parse : Str → Option GHPayload)
    (st : TodoState) (req : GHRequest) : HttpResponseInit × TodoState × List Effect :=
  let sigOk :=
    match env.webhookSecret with
    | none => true
    | some secret => verifySignature secret req.rawBody req.sigHeader
  if !sigOk then
    (⟨401, some (lc "Signature mismatch"), none⟩, st, [])
  else
    match parse req.rawBody with
    | none => (⟨400, some (lc "Invalid JSON"), none⟩, st, [.parseBody])
    | some payload =>
      if !(req.eventHeader == some (lc "issues")) then
        (⟨200, some (lc "Event ignored"), none⟩, st, [.parseBody])
      else if payload.action == lc "opened" then
        let owner? := payload.repository.bind (fun r => r.ownerLogin)
        let repo? := payload.repository.bind (fun r => r.name)
        if !(optTruthy owner? && optTruthy repo?) then
          (⟨200, some (lc "Repository info missing"), none⟩, st, [.parseBody])
        else
          let owner := owner?.getD []
          let repo := repo?.getD []
          match findOrCreateListForRepo st owner repo with
          | (none, st1, effs) =>
            (⟨200, some (lc "No matching list group"), none⟩, st1, .parseBody :: effs)
          | (some listId, st1, effs) =>
            let taskBody := buildTaskBodyFromIssue payload.issue.htmlUrl payload.issue.body
            (⟨200, some (lc "Task created"), none⟩,
             addTask st1 listId payload.issue.title taskBody,
             .parseBody :: effs ++ [.createTask listId payload.issue.title taskBody])
      else if payload.action == lc "closed" || payload.action == lc "reopened" then
        match findLinkedTask st payload.issue.htmlUrl with
        | (none, effs) =>
          (⟨200, some (lc "No linked task found"), none⟩, st, .parseBody :: effs)
        | (some (listId, taskId), effs) =>
          let act : GitHubIssueAction :=
            if payload.action == lc "closed" then .closed else .reopened
          let newStatus := githubActionToTodoStatus act
          (⟨200, some (lc "Task updated"), none⟩,
           setTaskStatus st listId taskId newStatus,
           .parseBody :: effs ++ [.patchTaskStatus listId taskId newStatus])
      else
        (⟨200, some (lc "Action ignored"), none⟩, st, [.parseBody])

end TodoMcp

namespace TodoMcp

-- ── The To Do webhook handler (todo-webhook.ts) ──────────────────────────────

/-- Decimal digit character. -/
def digitChar (d : Nat) : Char := Char.ofNat (48 + d)

/-- Helper for `natDigits`, fuel-bounded. -/
def natDigitsGo : Nat → Nat → Str → Str
  | 0, _, acc => acc
  | fuel + 1, n, acc =>
    let acc' := digitChar (n % 10) :: acc
    if n < 10 then acc' else natDigitsGo fuel (n / 10) acc'

/-- Decimal representation of a natural number, as the GitHub API renders an
issue number inside `html_url`. -/
def natDigits (n : Nat) : Str := natDigitsGo (n + 1) n []

/-- Consume a nonempty `[^/]+` capture group, require the literal `litAfter`
to follow, and return the capture. -/
def segThenLit (litAfter : Str) (r : Str) : Option Str :=
  if (r.takeWhile (fun c => c ≠ '/')).isEmpty then none
  else
    match dropLit litAfter (r.dropWhile (fun c => c ≠ '/')) with
    | some _ => some (r.takeWhile (fun c => c ≠ '/'))
    | none => none

/-- Whether the regex `lists\/([^/]+)\/tasks` matches at the start of `s`;
on success return the capture group (the list id). -/
def listsTasksAt (s : Str) : Option Str :=
  (dropLit (lc "lists/") s).bind (segThenLit (lc "/tasks"))

/-- Leftmost match of `lists\/([^/]+)\/tasks` in a resource path — the
`notification.resource.match(…)` call extracting the list id. -/
def extractListId : Str → Option Str
  | [] => none
  | s@(_ :: t) =>
    match listsTasksAt s with
    | some x => some x
    | none => extractListId t

/-- Parse a task resource path `me/todo/lists/{listId}/tasks/{taskId}` — the
Graph service's routing of the `GET https://graph.microsoft.com/v1.0/{resource}`
fetch issued by the handler. -/
def parseTaskResource (resource : Str) : Option (Str × Str) :=
  (dropLit (lc "me/todo/lists/") resource).bind fun r =>
    if (r.takeWhile (fun c => c ≠ '/')).isEmpty then none
    else
      (dropLit (lc "/tasks/") (r.dropWhile (fun c => c ≠ '/'))).bind fun tid =>
        if tid.isEmpty || tid.contains '/' then none
        else some (r.takeWhile (fun c => c ≠ '/'), tid)

/-- Fetch the task a change notification refers to, from the Graph state. -/
def fetchTask (st : TodoState) (resource : Str) : Option TaskEntry :=
  (parseTaskResource resource).bind fun p =>
    (st.lists.find? (fun l => l.id == p.1)).bind fun l =>
      l.tasks.find? (fun t => t.id == p.2)

/-- Function `resolveOwnerRepoFromList` (`todo/graph/GraphClient.ts`): read
the list's display name (→ repo) and its parent group's display name
(→ owner); a list with no `groupId` resolves to `null`. -/
def resolveOwnerRepoFromList (st : TodoState) (listId : Str) :
    Option (Str × Str) × List Effect :=
  match st.lists.find? (fun l => l.id == listId) with
  | none => (none, [.getList listId])
  | some l =>
    match l.groupId with
    | none => (none, [.getList listId])
    | some gid =>
      match st.groups.find? (fun g => g.id == gid) with
      | none => (none, [.getList listId, .getListGroup gid])
      | some g => (some (g.displayName, l.displayName), [.getList listId, .getListGroup gid])

/-- The GitHub service state: the issue number it will assign next. -/
structure GitHubState where
  nextIssueNumber : Nat
deriving DecidableEq, Repr

/-- The combined external world the To Do webhook handler mutates. -/
structure WebhookState where
  todo : TodoState
  github : GitHubState
deriving DecidableEq, Repr

/-- The app settings the To Do webhook handler reads. -/
structure TodoWebhookEnv where
  hasGithubToken : Bool
  graphSubscriptionSecret : Option Str
deriving DecidableEq, Repr

/-- A Graph change notification entry. -/
structure GraphNotification where
  id : Str
  changeType : Str
  clientState : Option Str
  resource : Str
deriving DecidableEq, Repr

/-- Replace the body of one task (the Graph side of the body `PATCH`). -/
def updateTaskBody (st : TodoState) (listId taskId newBody : Str) : TodoState :=
  { st with
    lists := st.lists.map (fun l =>
      if l.id == listId then
        { l with tasks := l.tasks.map (fun t =>
            if t.id == taskId then { t with body := newBody } else t) }
      else l) }

/-- The `clientState` check of `processNotification`: mismatch only when a
secret is configured and the notification's value differs. -/
def clientStateMismatch (env : TodoWebhookEnv) (n : GraphNotification) : Bool :=
  match env.graphSubscriptionSecret with
  | none => false
  | some s => !(n.clientState == some s)

/-- The `html_url` GitHub assigns a newly created issue. -/
def issueHtmlUrl (owner repo : Str) (number : Nat) : Str :=
  lc "https://github.com/" ++ owner ++ lc "/" ++ repo ++ lc "/issues/" ++ natDigits number

/-- Function `processNotification` (`todo-webhook.ts`): for a `created`
notification, fetch the task, stop when a GitHub issue link already exists,
resolve owner/repo structurally, create the GitHub issue, and write the
back-reference into the task body.  Returns the updated world and the trace
of outbound calls made for this entry. -/
def processNotification (env : TodoWebhookEnv) (st : WebhookState)
    (n : GraphNotification) : WebhookState × List Effect :=
  if !(n.changeType == lc "created") then (st, [])
  else if !env.hasGithubToken then (st, [])
  else if clientStateMismatch env n then (st, [])
  else
    match fetchTask st.todo n.resource with
    | none => (st, [.fetchTask n.resource])
    | some task =>
      if hasGitHubIssueLink task.body then (st, [.fetchTask n.resource])
      else
        match extractListId n.resource with
        | none => (st, [.fetchTask n.resource])
        | some listId =>
          match resolveOwnerRepoFromList st.todo listId with
          | (none, effs) => (st, .fetchTask n.resource :: effs)
          | (some (owner, repo), effs) =>
            let issueBody := buildIssueBodyFromTask (some task.body)
            let num := st.github.nextIssueNumber
            let htmlUrl := issueHtmlUrl owner repo num
            let updatedBody := appendIssueLink task.body htmlUrl
            ({ todo := updateTaskBody st.todo listId task.id updatedBody,
               github := ⟨num + 1⟩ },
             .fetchTask n.resource :: effs ++
               [.createIssue owner repo task.title issueBody,
                .patchTaskBody listId task.id updatedBody])

/-- Process a notification batch entry by entry, collecting each entry's
effect trace separately (`payload.value.map(processNotification…)`). -/
def processBatch (env : TodoWebhookEnv) (st : WebhookState) :
    List GraphNotification → WebhookState × List (List Effect)
  | [] => (st, [])
  | n :: rest =>
    ((processBatch env (processNotification env st n).1 rest).1,
     (processNotification env st n).2 ::
       (processBatch env (processNotification env st n).1 rest).2)

/-- HTTP methods of interest. -/
inductive HttpMethod where
  | GET
  | POST
deriving DecidableEq, Repr

/-- An inbound HTTP request to the To Do webhook endpoint; `jsonBody` models
`request.json()` (`none` = the body is not valid JSON). -/
structure TodoRequest where
  method : HttpMethod
  validationToken : Option Str
  jsonBody : Option (List GraphNotification)
deriving DecidableEq, Repr

/-- Function `todoWebhookHandler` (`todo-webhook.ts`): echo a validation
token as `text/plain` 200, otherwise parse a batch of notifications, process
them, and acknowledge with 202. -/
def todoWebhookHandler (env : TodoWebhookEnv) (st : WebhookState)
    (req : TodoRequest) : HttpResponseInit × WebhookState × List (List Effect) :=
  match req.validationToken with
  | some token => (⟨200, some token, some (lc "text/plain")⟩, st, [])
  | none =>
    match req.jsonBody with
    | none => (⟨400, some (lc "Invalid JSON"), none⟩, st, [])
    | some notifications =>
      (⟨202, none, none⟩, (processBatch env st notifications).1,
       (processBatch env st notifications).2)

/-- The methods the `app.http("todo-webhook", …)` registration accepts. -/
def todoWebhookMethods : List HttpMethod := [.POST]

/-- The deployed endpoint: the Functions host routes only the registered
methods to the handler; others never reach it (modelled as `none`). -/
def todoWebhookEndpoint (env : TodoWebhookEnv) (st : WebhookState)
    (req : TodoRequest) : Option (HttpResponseInit × WebhookState × List (List Effect)) :=
  if req.method ∈ todoWebhookMethods then some (todoWebhookHandler env st req)
  else none

-- ── The token lifecycle manager (token-manager.ts, part of the repo
--    outside src/src; modelled from its source text) ──────────────────────────

/-- Constant `TOKEN_REFRESH_BUFFER_MS`: 5 minutes. -/
def TOKEN_REFRESH_BUFFER_MS : Int := 300000

/-- A cached credential (`TokenData`). -/
structure TokenData where
  accessToken : Str
  refreshToken : Str
  expiresAt : Int
deriving DecidableEq, Repr

/-- The environment variables the token manager reads; `[]` models an unset
or empty (falsy) variable, `0` an unset expiry. -/
structure TokenEnv where
  msAccessToken : Str
  msRefreshToken : Str
  msExpiresAt : Int
  clientId : Str
  clientSecret : Str
deriving DecidableEq, Repr

/-- The OAuth token endpoint's answer to a refresh-token grant: `none` is a
non-OK or failed exchange; absent `refresh_token` / `expires_in` fields are
modelled as `[]` / `0` (their falsy defaults). -/
structure RefreshResponse where
  accessToken : Str
  refreshToken : Str
  expiresIn : Int
deriving DecidableEq, Repr

/-- Method `refreshAccessToken` (`token-manager.ts`): exchange the refresh
token; on success install and return the new credential (`expires_in`
defaults to 3600 when falsy, and the recorded expiry already subtracts the
buffer).  Returns the result and the new cache. -/
def refreshAccessToken (env : TokenEnv) (now : Int) (oracle : Option RefreshResponse)
    (cache : Option TokenData) (refreshToken : Str) :
    Option TokenData × Option TokenData :=
  if env.clientId.isEmpty || env.clientSecret.isEmpty then (none, cache)
  else
    match oracle with
    | none => (none, cache)
    | some r =>
      let lifetime := if r.expiresIn == 0 then 3600 else r.expiresIn
      let expiresAt := now + lifetime * 1000 - TOKEN_REFRESH_BUFFER_MS
      let tok : TokenData :=
        ⟨r.accessToken,
         if r.refreshToken.isEmpty then refreshToken else r.refreshToken,
         expiresAt⟩
      (some tok, some tok)

/-- The refresh token `getTokens` would use: the environment variable when
truthy, else the cached credential's (`envRefreshToken ||
this.cachedToken?.refreshToken`, with `undefined` modelled as `[]`). -/
def refreshTokenOf (env : TokenEnv) (cache : Option TokenData) : Str :=
  if strTruthy env.msRefreshToken then env.msRefreshToken
  else
    match cache with
    | some c => c.refreshToken
    | none => []

/-- The part of `getTokens` after the cache check misses: bootstrap from the
environment, else refresh, else give up. -/
def getTokensNoCacheHit (env : TokenEnv) (now : Int) (oracle : Option RefreshResponse)
    (cache : Option TokenData) : Option TokenData × Option TokenData :=
  if strTruthy env.msAccessToken && !(env.msExpiresAt == 0)
      && decide (now < env.msExpiresAt - TOKEN_REFRESH_BUFFER_MS) then
    (some ⟨env.msAccessToken, env.msRefreshToken, env.msExpiresAt⟩,
     some ⟨env.msAccessToken, env.msRefreshToken, env.msExpiresAt⟩)
  else if strTruthy (refreshTokenOf env cache) then
    refreshAccessToken env now oracle cache (refreshTokenOf env cache)
  else (none, cache)

/-- Method `TokenManager.getTokens` (`token-manager.ts`): return the cached
credential while still valid under the 5-minute buffer, else bootstrap from
environment variables, else attempt a refresh-token grant, else `null`.
Returns the result and the cache afterwards. -/
def getTokens (env : TokenEnv) (now : Int) (oracle : Option RefreshResponse)
    (cache : Option TokenData) : Option TokenData × Option TokenData :=
  match cache with
  | some c =>
    if now < c.expiresAt - TOKEN_REFRESH_BUFFER_MS then (some c, some c)
    else getTokensNoCacheHit env now oracle cache
  | none => getTokensNoCacheHit env now oracle cache

end TodoMcp

namespace TodoMcp

-- ── Helper lemmas: literals, segments, and the URL pattern ───────────────────

/-- Dropping a literal prefix from itself plus a remainder succeeds. -/
theorem dropLit_self_append (p r : Str) : dropLit p (p ++ r) = some r := by
  induction p with
  | nil => rfl
  | cons c t ih => simp [dropLit, ih]

/-- A successful literal drop exposes the decomposition. -/
theorem eq_append_of_dropLit (p : Str) :
    ∀ s r, dropLit p s = some r → s = p ++ r := by
  induction p with
  | nil => intro s r h; simp [dropLit] at h; simpa using h
  | cons c t ih =>
    intro s r h
    cases s with
    | nil => simp [dropLit] at h
    | cons x xs =>
      by_cases hx : c = x
      · subst hx
        simp only [dropLit, if_pos rfl] at h
        simpa using ih xs r h
      · simp [dropLit, hx] at h

/-- takeWhile over a prefix whose members all satisfy the predicate. -/
theorem takeWhile_append_all {p : Char → Bool} {L : Str} (r : Str)
    (h : ∀ c ∈ L, p c = true) :
    (L ++ r).takeWhile p = L ++ r.takeWhile p := by
  induction L with
  | nil => simp
  | cons c t ih =>
    have hc : p c = true := h c (by simp)
    simp only [List.cons_append, List.takeWhile_cons, hc, if_true]
    rw [ih (fun x hx => h x (by simp [hx]))]

/-- dropWhile over a prefix whose members all satisfy the predicate. -/
theorem dropWhile_append_all {p : Char → Bool} {L : Str} (r : Str)
    (h : ∀ c ∈ L, p c = true) :
    (L ++ r).dropWhile p = r.dropWhile p := by
  induction L with
  | nil => simp
  | cons c t ih =>
    have hc : p c = true := h c (by simp)
    simp only [List.cons_append, List.dropWhile_cons, hc, if_true]
    exact ih (fun x hx => h x (by simp [hx]))

/-- Consuming a nonempty slash-free segment followed by a slash succeeds and
returns exactly the remainder. -/
theorem dropSeg_append (seg r : Str) (hne : seg ≠ [])
    (hns : ∀ c ∈ seg, c ≠ '/') :
    dropSeg (seg ++ '/' :: r) = some r := by
  have hall : ∀ c ∈ seg, (fun c => decide (c ≠ '/')) c = true := by
    intro c hc; simpa using hns c hc
  unfold dropSeg
  rw [show seg ++ '/' :: r = seg ++ ('/' :: r) from rfl]
  rw [takeWhile_append_all ('/' :: r) hall, dropWhile_append_all ('/' :: r) hall]
  simp [List.takeWhile_cons, List.dropWhile_cons, hne]

/-- A successful segment consumption exposes the decomposition. -/
theorem dropSeg_eq_some (s r : Str) (h : dropSeg s = some r) :
    ∃ seg, s = seg ++ '/' :: r ∧ seg ≠ [] ∧ ∀ c ∈ seg, c ≠ '/' := by
  unfold dropSeg at h
  split at h
  · exact absurd h (by simp)
  · rename_i hne
    split at h
    · rename_i c rest' heq
      split at h
      · rename_i hc
        subst hc
        injection h with h'
        subst h'
        refine ⟨s.takeWhile (fun c => decide (c ≠ '/')), ?_, ?_, ?_⟩
        · conv_lhs => rw [← List.takeWhile_append_dropWhile
            (p := fun c => decide (c ≠ '/')) (l := s)]
          rw [heq]
        · intro hnil
          rw [hnil] at hne
          simp at hne
        · intro c hc
          have := List.mem_takeWhile_imp hc
          simpa using this
      · exact absurd h (by simp)
    · exact absurd h (by simp)

/-- A match at the start of a canonical issue URL (with any continuation). -/
theorem issueUrlAt_canonical (owner repo rest tail : Str) (c0 : Char)
    (hO : owner ≠ []) (hO2 : ∀ c ∈ owner, c ≠ '/')
    (hR : repo ≠ []) (hR2 : ∀ c ∈ repo, c ≠ '/')
    (hd : c0.isDigit = true) :
    issueUrlAt (lc "https://github.com/" ++ owner ++ lc "/" ++ repo ++
      lc "/issues/" ++ (c0 :: rest) ++ tail) = true := by
  have e : lc "https://github.com/" ++ owner ++ lc "/" ++ repo ++
      lc "/issues/" ++ (c0 :: rest) ++ tail
      = lc "https://github.com/" ++
        (owner ++ '/' :: (repo ++ '/' :: (lc "issues/" ++ (c0 :: (rest ++ tail))))) := by
    rw [show lc "/issues/" = '/' :: lc "issues/" from rfl,
        show lc "/" = ['/'] from rfl]
    simp [List.append_assoc]
  rw [e]
  unfold issueUrlAt
  rw [dropLit_self_append, Option.some_bind,
      dropSeg_append owner _ hO hO2, Option.some_bind,
      dropSeg_append repo _ hR hR2, Option.some_bind,
      dropLit_self_append]
  simpa [headDigit] using hd

/-- A match at position `pre.length` makes the unanchored scan succeed. -/
theorem containsIssueUrl_append (pre s : Str) (h : issueUrlAt s = true) :
    containsIssueUrl (pre ++ s) = true := by
  induction pre with
  | nil =>
    cases hs : s with
    | nil =>
      rw [hs] at h
      simp [issueUrlAt, dropLit, lc, headDigit] at h
    | cons c t =>
      rw [hs] at h
      simpa [containsIssueUrl] using Or.inl h
  | cons c t ih =>
    simpa [containsIssueUrl] using Or.inr ih

/-- Round trip of the guard: a body with the canonical URL appended is
always detected as linked. -/
theorem hasLink_append (b owner repo rest : Str) (c0 : Char)
    (hO : owner ≠ []) (hO2 : ∀ c ∈ owner, c ≠ '/')
    (hR : repo ≠ []) (hR2 : ∀ c ∈ repo, c ≠ '/')
    (hd : c0.isDigit = true) :
    hasGitHubIssueLink (appendIssueLink b
      (lc "https://github.com/" ++ owner ++ lc "/" ++ repo ++
        lc "/issues/" ++ (c0 :: rest))) = true := by
  have hurl : issueUrlAt (lc "https://github.com/" ++ owner ++ lc "/" ++ repo ++
      lc "/issues/" ++ (c0 :: rest)) = true := by
    have := issueUrlAt_canonical owner repo rest [] c0 hO hO2 hR hR2 hd
    simpa using this
  unfold appendIssueLink hasGitHubIssueLink
  by_cases hb : strTruthy b = true
  · rw [if_pos hb]
    exact containsIssueUrl_append _ _ hurl
  · rw [if_neg hb]
    exact containsIssueUrl_append _ _ hurl

/-- A successful anchored match exposes the canonical decomposition. -/
theorem issueUrlAt_decomp (s : Str) (h : issueUrlAt s = true) :
    ∃ owner repo c0 post,
      s = lc "https://github.com/" ++
        (owner ++ '/' :: (repo ++ '/' :: (lc "issues/" ++ (c0 :: post)))) ∧
      owner ≠ [] ∧ (∀ c ∈ owner, c ≠ '/') ∧ repo ≠ [] ∧ (∀ c ∈ repo, c ≠ '/') ∧
      c0.isDigit = true := by
  unfold issueUrlAt at h
  cases h1 : dropLit (lc "https://github.com/") s with
  | none => rw [h1] at h; simp [headDigit] at h
  | some r1 =>
    rw [h1, Option.some_bind] at h
    cases h2 : dropSeg r1 with
    | none => rw [h2] at h; simp [headDigit] at h
    | some r2 =>
      rw [h2, Option.some_bind] at h
      cases h3 : dropSeg r2 with
      | none => rw [h3] at h; simp [headDigit] at h
      | some r3 =>
        rw [h3, Option.some_bind] at h
        cases h4 : dropLit (lc "issues/") r3 with
        | none => rw [h4] at h; simp [headDigit] at h
        | some r4 =>
          rw [h4] at h
          cases r4 with
          | nil => simp [headDigit] at h
          | cons c0 post =>
            obtain ⟨owner, hr1, hone, hons⟩ := dropSeg_eq_some r1 r2 h2
            obtain ⟨repo, hr2, hrne, hrns⟩ := dropSeg_eq_some r2 r3 h3
            refine ⟨owner, repo, c0, post, ?_, hone, hons, hrne, hrns, ?_⟩
            · rw [eq_append_of_dropLit _ _ _ h1, hr1, hr2,
                eq_append_of_dropLit _ _ _ h4]
            · simpa [headDigit] using h

/-- Declarative reading of the guard's pattern, written from the spec's
description: a substring of the canonical GitHub issue URL shape
`https://github.com/<owner>/<repo>/issues/<digits>`. -/
def ContainsIssueUrlSpec (b : Str) : Prop :=
  ∃ pre owner repo num post,
    b = pre ++ lc "https://github.com/" ++ owner ++ lc "/" ++ repo ++
      lc "/issues/" ++ num ++ post ∧
    owner ≠ [] ∧ (∀ c ∈ owner, c ≠ '/') ∧ repo ≠ [] ∧ (∀ c ∈ repo, c ≠ '/') ∧
    num ≠ [] ∧ (∀ c ∈ num, c.isDigit = true)

/-- The executable guard implies the declarative decomposition. -/
theorem spec_of_containsIssueUrl :
    ∀ b : Str, containsIssueUrl b = true → ContainsIssueUrlSpec b := by
  intro b
  induction b with
  | nil => intro h; simp [containsIssueUrl, issueUrlAt, dropLit, headDigit, lc] at h
  | cons c t ih =>
    intro h
    rw [containsIssueUrl] at h
    rcases (Bool.or_eq_true _ _).mp h with h1 | h2
    · obtain ⟨owner, repo, c0, post, hs, hone, hons, hrne, hrns, hdig⟩ :=
        issueUrlAt_decomp (c :: t) h1
      refine ⟨[], owner, repo, [c0], post, ?_, hone, hons, hrne, hrns,
        by simp, by simpa using hdig⟩
      rw [hs]
      rw [show lc "/" = ['/'] from rfl, show lc "/issues/" = '/' :: lc "issues/" from rfl]
      simp [List.append_assoc]
    · obtain ⟨pre, owner, repo, num, post, hs, rest⟩ := ih h2
      exact ⟨c :: pre, owner, repo, num, post, by rw [List.cons_append]; rw [hs]; simp, rest⟩

/-- The declarative decomposition implies the executable guard. -/
theorem containsIssueUrl_of_spec :
    ∀ b : Str, ContainsIssueUrlSpec b → containsIssueUrl b = true := by
  intro b hb
  obtain ⟨pre, owner, repo, num, post, hs, hone, hons, hrne, hrns, hnne, hnd⟩ := hb
  cases num with
  | nil => exact absurd rfl hnne
  | cons c0 nrest =>
    have hdig : c0.isDigit = true := hnd c0 (by simp)
    have hurl : issueUrlAt (lc "https://github.com/" ++ owner ++ lc "/" ++ repo ++
        lc "/issues/" ++ (c0 :: nrest) ++ post) = true :=
      issueUrlAt_canonical owner repo nrest post c0 hone hons hrne hrns hdig
    have he : b = pre ++ (lc "https://github.com/" ++ owner ++ lc "/" ++ repo ++
        lc "/issues/" ++ (c0 :: nrest) ++ post) := by
      rw [hs]; simp [List.append_assoc]
    rw [he]
    exact containsIssueUrl_append _ _ hurl

-- ── Helper lemmas: decimal digits and resource paths ─────────────────────────

/-- Decimal digit characters are digits. -/
theorem digitChar_isDigit (d : Nat) (h : d < 10) : (digitChar d).isDigit = true := by
  interval_cases d <;> decide

/-- Characterization of the digit accumulator. -/
theorem natDigitsGo_spec : ∀ (fuel n : Nat) (acc : Str),
    ∃ ds, natDigitsGo fuel n acc = ds ++ acc ∧ (∀ c ∈ ds, c.isDigit = true) ∧
      (fuel ≠ 0 → ds ≠ []) := by
  intro fuel
  induction fuel with
  | zero => intro n acc; exact ⟨[], rfl, by simp, by simp⟩
  | succ f ih =>
    intro n acc
    by_cases hn : n < 10
    · refine ⟨[digitChar (n % 10)], by simp [natDigitsGo, hn], ?_, by simp⟩
      intro c hc
      have : c = digitChar (n % 10) := by simpa using hc
      rw [this]
      exact digitChar_isDigit _ (Nat.mod_lt _ (by norm_num))
    · obtain ⟨ds, hds, hdig, _⟩ := ih (n / 10) (digitChar (n % 10) :: acc)
      refine ⟨ds ++ [digitChar (n % 10)], ?_, ?_, by simp⟩
      · simp [natDigitsGo, hn, hds]
      · intro c hc
        rcases List.mem_append.mp hc with h | h
        · exact hdig c h
        · have : c = digitChar (n % 10) := by simpa using h
          rw [this]
          exact digitChar_isDigit _ (Nat.mod_lt _ (by norm_num))

/-- The decimal rendering of a natural number is a nonempty digit string. -/
theorem natDigits_spec (n : Nat) :
    natDigits n ≠ [] ∧ ∀ c ∈ natDigits n, c.isDigit = true := by
  obtain ⟨ds, hds, hdig, hne⟩ := natDigitsGo_spec (n + 1) n []
  unfold natDigits
  rw [hds]
  simp only [List.append_nil]
  exact ⟨hne (by simp), hdig⟩

/-- Digits are never a slash. -/
theorem digit_ne_slash (c : Char) (h : c.isDigit = true) : c ≠ '/' := by
  intro he
  rw [he] at h
  simp [Char.isDigit] at h

/-- Match success when the capture is followed by the required literal. -/
theorem segThenLit_found (lit L r rest' : Str) (hne : L ≠ [])
    (hns : ∀ c ∈ L, c ≠ '/') (hlit : dropLit lit ('/' :: r) = some rest') :
    segThenLit lit (L ++ '/' :: r) = some L := by
  have hall : ∀ c ∈ L, (fun c => decide (c ≠ '/')) c = true := by
    intro c hc; simpa using hns c hc
  have ht : (L ++ '/' :: r).takeWhile (fun c => decide (c ≠ '/')) = L := by
    rw [show L ++ '/' :: r = L ++ ('/' :: r) from rfl, takeWhile_append_all _ hall]
    simp
  have hw : (L ++ '/' :: r).dropWhile (fun c => decide (c ≠ '/')) = '/' :: r := by
    rw [show L ++ '/' :: r = L ++ ('/' :: r) from rfl, dropWhile_append_all _ hall]
    simp
  unfold segThenLit
  rw [ht, hw, hlit]
  simp [hne]

/-- A non-`l` head character cannot start a `lists/…` match. -/
theorem listsTasksAt_head_ne (c : Char) (X : Str) (h : c ≠ 'l') :
    listsTasksAt (c :: X) = none := by
  unfold listsTasksAt
  rw [show lc "lists/" = 'l' :: lc "ists/" from rfl]
  rw [show dropLit ('l' :: lc "ists/") (c :: X) =
      (if 'l' = c then dropLit (lc "ists/") X else none) from rfl]
  rw [if_neg (fun hh => h hh.symm)]
  rfl

/-- The scan skips a head character that cannot start a match. -/
theorem extractListId_step (c : Char) (t : Str) (h : c ≠ 'l') :
    extractListId (c :: t) = extractListId t := by
  rw [show extractListId (c :: t) = (match listsTasksAt (c :: t) with
      | some x => some x
      | none => extractListId t) from rfl]
  rw [listsTasksAt_head_ne c t h]

/-- The scan stops at a successful match. -/
theorem extractListId_found (c : Char) (t : Str) (L : Str)
    (h : listsTasksAt (c :: t) = some L) :
    extractListId (c :: t) = some L := by
  rw [show extractListId (c :: t) = (match listsTasksAt (c :: t) with
      | some x => some x
      | none => extractListId t) from rfl]
  rw [h]

/-- Slash-free strings do not contain a slash. -/
theorem contains_slash_false (T : Str) (h : ∀ c ∈ T, c ≠ '/') :
    T.contains '/' = false := by
  rw [← Bool.not_eq_true]
  intro hc
  have hm : '/' ∈ T := by simpa using hc
  exact h _ hm rfl

/-- The list-id extraction on a well-formed task resource path. -/
theorem extractListId_concat (L T : Str) (hL : L ≠ []) (hL2 : ∀ c ∈ L, c ≠ '/') :
    extractListId (lc "me/todo/lists/" ++ L ++ lc "/tasks/" ++ T) = some L := by
  have e : lc "me/todo/lists/" ++ L ++ lc "/tasks/" ++ T =
      'm' :: 'e' :: '/' :: 't' :: 'o' :: 'd' :: 'o' :: '/' ::
        ('l' :: (lc "ists/" ++ (L ++ '/' :: (lc "tasks" ++ ('/' :: T))))) := by
    rw [show lc "me/todo/lists/" =
          'm' :: 'e' :: '/' :: 't' :: 'o' :: 'd' :: 'o' :: '/' :: 'l' :: lc "ists/" from rfl,
        show lc "/tasks/" = '/' :: (lc "tasks" ++ ['/']) from rfl]
    simp [List.append_assoc]
  rw [e]
  rw [extractListId_step _ _ (by decide), extractListId_step _ _ (by decide),
      extractListId_step _ _ (by decide), extractListId_step _ _ (by decide),
      extractListId_step _ _ (by decide), extractListId_step _ _ (by decide),
      extractListId_step _ _ (by decide), extractListId_step _ _ (by decide)]
  apply extractListId_found
  unfold listsTasksAt
  rw [show ('l' :: (lc "ists/" ++ (L ++ '/' :: (lc "tasks" ++ ('/' :: T))))) =
      lc "lists/" ++ (L ++ '/' :: (lc "tasks" ++ ('/' :: T))) from by
        rw [show lc "lists/" = 'l' :: lc "ists/" from rfl]; simp]
  rw [dropLit_self_append, Option.some_bind]
  exact segThenLit_found _ L _ ('/' :: T) hL hL2 (by
    rw [show ('/' :: (lc "tasks" ++ ('/' :: T))) = lc "/tasks" ++ ('/' :: T) from by
          rw [show lc "/tasks" = '/' :: lc "tasks" from rfl]; simp]
    exact dropLit_self_append _ _)

/-- The Graph routing of a well-formed task resource path. -/
theorem parseTaskResource_concat (L T : Str) (hL : L ≠ []) (hL2 : ∀ c ∈ L, c ≠ '/')
    (hT : T ≠ []) (hT2 : ∀ c ∈ T, c ≠ '/') :
    parseTaskResource (lc "me/todo/lists/" ++ L ++ lc "/tasks/" ++ T) = some (L, T) := by
  have hall : ∀ c ∈ L, (fun c => decide (c ≠ '/')) c = true := by
    intro c hc; simpa using hL2 c hc
  have e : lc "me/todo/lists/" ++ L ++ lc "/tasks/" ++ T =
      lc "me/todo/lists/" ++ (L ++ '/' :: (lc "tasks/" ++ T)) := by
    rw [show lc "/tasks/" = '/' :: lc "tasks/" from rfl]
    simp [List.append_assoc]
  have ht : (L ++ '/' :: (lc "tasks/" ++ T)).takeWhile (fun c => decide (c ≠ '/')) = L := by
    rw [show L ++ '/' :: (lc "tasks/" ++ T) = L ++ ('/' :: (lc "tasks/" ++ T)) from rfl,
        takeWhile_append_all _ hall]
    simp
  have hw : (L ++ '/' :: (lc "tasks/" ++ T)).dropWhile (fun c => decide (c ≠ '/')) =
      '/' :: (lc "tasks/" ++ T) := by
    rw [show L ++ '/' :: (lc "tasks/" ++ T) = L ++ ('/' :: (lc "tasks/" ++ T)) from rfl,
        dropWhile_append_all _ hall]
    simp
  have hlit : dropLit (lc "/tasks/") ('/' :: (lc "tasks/" ++ T)) = some T := by
    rw [show ('/' :: (lc "tasks/" ++ T)) = lc "/tasks/" ++ T from by
          rw [show lc "/tasks/" = '/' :: lc "tasks/" from rfl]; simp]
    exact dropLit_self_append _ _
  rw [e]
  unfold parseTaskResource
  rw [dropLit_self_append]
  simp only [Option.some_bind]
  rw [ht, hw, hlit]
  simp only [Option.some_bind]
  rw [if_neg (by simpa [List.isEmpty_iff] using hL)]
  rw [if_neg (by
    simp [List.isEmpty_iff, hT]
    exact fun hm => hT2 _ hm rfl)]

-- ── Support lemmas on handler effect traces ──────────────────────────────────

/-- Structural resolution never issues a status patch. -/
theorem findOrCreate_no_patch (st : TodoState) (o r l t s : Str) :
    Effect.patchTaskStatus l t s ∉ (findOrCreateListForRepo st o r).2.2 := by
  unfold findOrCreateListForRepo
  split
  · simp
  · split
    · simp
    · simp

/-- The linked-task scan only issues task reads. -/
theorem findLinkedGo_no_patch (url : Str) :
    ∀ (ls : List TaskListE) (l t s : Str),
      Effect.patchTaskStatus l t s ∉ (findLinkedTaskGo url ls).2 := by
  intro ls
  induction ls with
  | nil => intro l t s; simp [findLinkedTaskGo]
  | cons x xs ih =>
    intro l t s
    unfold findLinkedTaskGo
    split
    · simp
    · simp only [List.mem_cons]
      rintro (h | h)
      · exact Effect.noConfusion h
      · exact ih l t s h

-- ── Claim theorems ───────────────────────────────────────────────────────────

/-- C2: the phase-to-native-status mapping is a total, deterministic function
on all four phases in both tables (both are total Lean functions by
construction), with exactly the stated values; no phase is unmapped. -/
theorem phase_to_native_status_total :
    PHASE_TO_TODO_STATUS SmartGoalPhase.plan = lc "notStarted" ∧
    PHASE_TO_TODO_STATUS SmartGoalPhase.track = lc "inProgress" ∧
    PHASE_TO_TODO_STATUS SmartGoalPhase.complete = lc "completed" ∧
    PHASE_TO_TODO_STATUS SmartGoalPhase.archive = lc "completed" ∧
    PHASE_TO_GITHUB_STATE SmartGoalPhase.plan = lc "open" ∧
    PHASE_TO_GITHUB_STATE SmartGoalPhase.track = lc "open" ∧
    PHASE_TO_GITHUB_STATE SmartGoalPhase.complete = lc "closed" ∧
    PHASE_TO_GITHUB_STATE SmartGoalPhase.archive = lc "closed" := by
  decide

/-- C10: for every recognized GitHub issue action, `githubActionToTodoStatus`
yields only `notStarted` or `completed` and never `inProgress` (the Track
phase's status), and consequently no status patch the GitHub webhook handler
ever issues carries `inProgress`. -/
theorem github_sync_never_in_progress :
    (∀ a : GitHubIssueAction,
        githubActionToTodoStatus a = lc "notStarted" ∨
        githubActionToTodoStatus a = lc "completed") ∧
    (∀ a : GitHubIssueAction, githubActionToTodoStatus a ≠ lc "inProgress") ∧
    PHASE_TO_TODO_STATUS SmartGoalPhase.track = lc "inProgress" ∧
    (∀ env parse st req pl pt ps,
        Effect.patchTaskStatus pl pt ps ∈
          (githubWebhookHandler env parse st req).2.2 →
        ps ≠ lc "inProgress") := by
  refine ⟨fun a => by cases a <;> decide, fun a => by cases a <;> decide, by decide, ?_⟩
  intro env parse st req pl pt ps hmem
  simp only [githubWebhookHandler, findLinkedTask] at hmem
  split at hmem
  · simp at hmem
  · split at hmem
    · simp at hmem
    · split at hmem
      · simp at hmem
      · split at hmem
        · split at hmem
          · simp at hmem
          · split at hmem
            · rename_i st1 effs heq
              simp at hmem
              rw [show effs = (findOrCreateListForRepo st _ _).2.2 from by rw [heq]] at hmem
              exact absurd hmem (findOrCreate_no_patch st _ _ pl pt ps)
            · rename_i lid st1 effs heq
              simp at hmem
              rw [show effs = (findOrCreateListForRepo st _ _).2.2 from by rw [heq]] at hmem
              exact absurd hmem (findOrCreate_no_patch st _ _ pl pt ps)
        · split at hmem
          · split at hmem
            · rename_i effs heq
              injection heq with e1 e2
              subst e2
              simp at hmem
              exact absurd hmem (findLinkedGo_no_patch _ _ pl pt ps)
            · rename_i lid tid effs heq
              injection heq with e1 e2
              subst e2
              simp at hmem
              rcases hmem with h | ⟨h1, h2, h3⟩
              · exact absurd h (findLinkedGo_no_patch _ _ pl pt ps)
              · subst h3
                split <;> decide
          · simp at hmem

/-- Model of `timingSafeEqual` under try/catch decides exactly equality. -/
theorem timingSafeEqualCaught_iff (a b : Str) :
    timingSafeEqualCaught a b = true ↔ b = a := by
  unfold timingSafeEqualCaught
  split
  · constructor
    · intro hb
      exact (beq_iff_eq.mp hb).symm
    · intro he
      exact beq_iff_eq.mpr he.symm
  · rename_i hlen
    simp only [Bool.false_eq_true, false_iff]
    intro he
    exact hlen (by rw [he])

/-- Characterization of `verifySignature`: it accepts exactly the header
`sha256=` + the lowercase hex HMAC of the body. -/
theorem verifySignature_true_iff (secret rawBody : Str) (sigHeader : Option Str) :
    verifySignature secret rawBody sigHeader = true ↔
      sigHeader = some (lc "sha256=" ++ hmacHex secret rawBody) := by
  cases sigHeader with
  | none =>
    rw [show verifySignature secret rawBody none = false from rfl]
    simp
  | some h =>
    rw [show verifySignature secret rawBody (some h) =
        (if List.isPrefixOf (lc "sha256=") h = true then
          timingSafeEqualCaught (lc "sha256=" ++ hmacHex secret rawBody) h
        else false) from rfl]
    by_cases hpre : (lc "sha256=").isPrefixOf h = true
    · rw [if_pos hpre, timingSafeEqualCaught_iff]
      simp
    · rw [if_neg hpre]
      simp only [Bool.false_eq_true, false_iff]
      intro he
      injection he with he'
      subst he'
      exact hpre (List.isPrefixOf_iff_prefix.mpr (List.prefix_append _ _))

/-- C5: `verifySignature` returns true iff the header equals `sha256=` +
the lowercase hex HMAC-SHA256 of the raw body under the secret; hence the
correctly signed body verifies, any differing header (in particular one of
differing length or missing the prefix, which yields false rather than
throwing) is rejected, and any body whose digest differs is rejected. -/
theorem verify_signature_iff (secret rawBody : Str) :
    (∀ sigHeader, verifySignature secret rawBody sigHeader = true ↔
        sigHeader = some (lc "sha256=" ++ hmacHex secret rawBody)) ∧
    verifySignature secret rawBody
      (some (lc "sha256=" ++ hmacHex secret rawBody)) = true ∧
    (∀ h, h ≠ lc "sha256=" ++ hmacHex secret rawBody →
        verifySignature secret rawBody (some h) = false) ∧
    (∀ body2, hmacHex secret body2 ≠ hmacHex secret rawBody →
        verifySignature secret body2
          (some (lc "sha256=" ++ hmacHex secret rawBody)) = false) := by
  refine ⟨fun s => verifySignature_true_iff secret rawBody s,
    (verifySignature_true_iff secret rawBody _).mpr rfl, ?_, ?_⟩
  · intro h hne
    cases hv : verifySignature secret rawBody (some h)
    · rfl
    · have := (verifySignature_true_iff secret rawBody (some h)).mp hv
      injection this with this'
      exact absurd this' hne
  · intro body2 hne
    cases hv : verifySignature secret body2
        (some (lc "sha256=" ++ hmacHex secret rawBody))
    · rfl
    · have := (verifySignature_true_iff secret body2 _).mp hv
      injection this with this'
      exact absurd (List.append_cancel_left this'.symm) hne

set_option maxRecDepth 100000 in
/-- Witness for C5 at the spec's own example: secret `s3cret`, body
`{"action":"opened"}`, with the digest computed concretely; a mutated header
and a body with its first byte mutated are both rejected. -/
theorem verify_signature_iff_witness :
    hmacHex (lc "s3cret") (lc "\x7b\"action\":\"opened\"\x7d") =
      lc "3ef76f8f67c2839504b3534592c6f42cabaa13dca21ed349ad19be2f2124b158" ∧
    verifySignature (lc "s3cret") (lc "\x7b\"action\":\"opened\"\x7d")
      (some (lc "sha256=" ++
        hmacHex (lc "s3cret") (lc "\x7b\"action\":\"opened\"\x7d"))) = true ∧
    verifySignature (lc "s3cret") (lc "\x7b\"action\":\"opened\"\x7d")
      (some (lc "sha256=deadbeef")) = false ∧
    verifySignature (lc "s3cret") (lc "|\"action\":\"opened\"\x7d")
      (some (lc "sha256=" ++
        hmacHex (lc "s3cret") (lc "\x7b\"action\":\"opened\"\x7d"))) = false :=
  ⟨by decide,
   (verify_signature_iff _ _).2.1,
   (verify_signature_iff _ _).2.2.1 _ (by decide),
   (verify_signature_iff _ _).2.2.2 _ (by decide)⟩

/-- C1: with a webhook secret configured, a request whose signature header is
missing or differs from `sha256=` + the body's HMAC is answered 401 with the
Graph state unchanged and an empty outbound trace — the payload is not even
JSON-parsed (the result is the same for every `parse` function). -/
theorem github_webhook_rejects_bad_signature
    (env : GHEnv) (parse : Str → Option GHPayload) (st : TodoState) (req : GHRequest)
    (secret : Str) (hsec : env.webhookSecret = some secret)
    (hsig : req.sigHeader ≠ some (lc "sha256=" ++ hmacHex secret req.rawBody)) :
    githubWebhookHandler env parse st req =
      (⟨401, some (lc "Signature mismatch"), none⟩, st, []) := by
  have hv : verifySignature secret req.rawBody req.sigHeader = false := by
    cases hvv : verifySignature secret req.rawBody req.sigHeader
    · rfl
    · exact absurd ((verifySignature_true_iff secret req.rawBody req.sigHeader).mp hvv) hsig
  unfold githubWebhookHandler
  rw [hsec]
  simp [hv]

/-- Witness for C1: a request with the signature header absent. -/
theorem github_webhook_rejects_bad_signature_witness :
    githubWebhookHandler ⟨some (lc "s3cret")⟩ (fun _ => none)
      ⟨[], [], lc "newL", lc "newT"⟩ ⟨lc "x", none, none⟩ =
      (⟨401, some (lc "Signature mismatch"), none⟩,
       ⟨[], [], lc "newL", lc "newT"⟩, []) :=
  github_webhook_rejects_bad_signature _ _ _ _ (lc "s3cret") rfl (by simp)

/-- C4 counterexample: a body that contains a canonical issue URL but no
occurrence of the marker `GitHub Issue:` is still reported as linked, so the
detection is not anchored to the marker as the claim states. -/
theorem has_link_without_marker :
    hasGitHubIssueLink (lc "see https://github.com/octo/widgets/issues/7") = true ∧
    containsSub (lc "see https://github.com/octo/widgets/issues/7")
      ISSUE_LINK_MARKER = false := by
  decide

/-- C4 (amended): the guard returns true exactly when the body contains a
substring of the canonical anchored URL shape
`https://github.com/<owner>/<repo>/issues/<digits>` — independently of the
marker; the marker word alone without such a URL does not count. -/
theorem has_link_iff_contains_url :
    (∀ b, hasGitHubIssueLink b = true ↔ ContainsIssueUrlSpec b) ∧
    hasGitHubIssueLink (ISSUE_LINK_MARKER ++ lc " coming soon") = false := by
  constructor
  · intro b
    exact ⟨spec_of_containsIssueUrl b, containsIssueUrl_of_spec b⟩
  · decide

/-- Witness for C4's amended iff at a concrete linked body. -/
theorem has_link_iff_contains_url_witness :
    hasGitHubIssueLink
      (lc "GitHub Issue: https://github.com/octo/widgets/issues/12") = true :=
  (has_link_iff_contains_url.1 _).mpr
    ⟨lc "GitHub Issue: ", lc "octo", lc "widgets", lc "12", [],
     by decide, by decide, by decide, by decide, by decide, by decide, by decide⟩

/-- C6: structural resolution: with no group named `owner`, resolution
returns `none` after only the group listing — nothing is created; with the
group present but no list named `repo` in it, exactly one list (with
display name `repo`, inside that group, carrying the service-assigned fresh
id) is created and its id returned; resolving again on the resulting state
returns that same id with no further creation. -/
theorem find_or_create_list_resolution (st : TodoState) (owner repo : Str) :
    (st.groups.find? (fun g => g.displayName == owner) = none →
      findOrCreateListForRepo st owner repo = (none, st, [Effect.getListGroups])) ∧
    (∀ g, st.groups.find? (fun g => g.displayName == owner) = some g →
      (groupLists st g.id).find? (fun l => l.displayName == repo) = none →
      findOrCreateListForRepo st owner repo =
        (some st.freshListId,
         { st with lists := st.lists ++ [⟨st.freshListId, repo, some g.id, []⟩] },
         [Effect.getListGroups, Effect.getGroupLists g.id,
          Effect.createList g.id repo]) ∧
      findOrCreateListForRepo
          { st with lists := st.lists ++ [⟨st.freshListId, repo, some g.id, []⟩] }
          owner repo =
        (some st.freshListId,
         { st with lists := st.lists ++ [⟨st.freshListId, repo, some g.id, []⟩] },
         [Effect.getListGroups, Effect.getGroupLists g.id])) := by
  constructor
  · intro hnone
    unfold findOrCreateListForRepo
    simp only [hnone]
  · intro g hg hnol
    have hgl : groupLists
        { st with lists := st.lists ++ [⟨st.freshListId, repo, some g.id, []⟩] } g.id =
        groupLists st g.id ++ [⟨st.freshListId, repo, some g.id, []⟩] := by
      unfold groupLists
      simp [List.filter_append]
    constructor
    · unfold findOrCreateListForRepo
      simp only [hg, hnol]
    · unfold findOrCreateListForRepo
      simp only [hg, hgl, List.find?_append, hnol]
      simp [List.find?_cons]

/-- Witness for C6: a group `Acme` with no list named `widgets`; resolution
creates exactly one list and a second resolution returns the same id without
creating another. -/
theorem find_or_create_list_resolution_witness :
    findOrCreateListForRepo ⟨[⟨lc "g1", lc "Acme"⟩], [], lc "L9", lc "T9"⟩
        (lc "Acme") (lc "widgets") =
      (some (lc "L9"),
       ⟨[⟨lc "g1", lc "Acme"⟩], [⟨lc "L9", lc "widgets", some (lc "g1"), []⟩],
        lc "L9", lc "T9"⟩,
       [Effect.getListGroups, Effect.getGroupLists (lc "g1"),
        Effect.createList (lc "g1") (lc "widgets")]) ∧
    findOrCreateListForRepo
        ⟨[⟨lc "g1", lc "Acme"⟩], [⟨lc "L9", lc "widgets", some (lc "g1"), []⟩],
         lc "L9", lc "T9"⟩
        (lc "Acme") (lc "widgets") =
      (some (lc "L9"),
       ⟨[⟨lc "g1", lc "Acme"⟩], [⟨lc "L9", lc "widgets", some (lc "g1"), []⟩],
        lc "L9", lc "T9"⟩,
       [Effect.getListGroups, Effect.getGroupLists (lc "g1")]) :=
  (find_or_create_list_resolution ⟨[⟨lc "g1", lc "Acme"⟩], [], lc "L9", lc "T9"⟩
      (lc "Acme") (lc "widgets")).2
    ⟨lc "g1", lc "Acme"⟩ (by decide) (by decide)

/-- C7 counterexample: the `app.http` registration accepts only POST, so a
GET request carrying a validation token is never routed to the handler — it
does not receive the 200 echo the claim asserts for GET. -/
theorem todo_webhook_get_not_routed :
    todoWebhookEndpoint ⟨true, none⟩ ⟨⟨[], [], lc "L", lc "T"⟩, ⟨1⟩⟩
      ⟨HttpMethod.GET, some (lc "abc123"), none⟩ = none := by
  decide

/-- C7 (amended): the handler echoes any request carrying a validation token
as status 200, body exactly the token, content type `text/plain`, with no
state change and no notification processing; through the endpoint
registration this holds for POST requests (the only registered method). -/
theorem todo_webhook_validation_echo (env : TodoWebhookEnv) (st : WebhookState)
    (req : TodoRequest) (token : Str) (h : req.validationToken = some token) :
    todoWebhookHandler env st req =
      (⟨200, some token, some (lc "text/plain")⟩, st, []) ∧
    (req.method = HttpMethod.POST →
      todoWebhookEndpoint env st req =
        some (⟨200, some token, some (lc "text/plain")⟩, st, [])) := by
  have hh : todoWebhookHandler env st req =
      (⟨200, some token, some (lc "text/plain")⟩, st, []) := by
    unfold todoWebhookHandler
    rw [h]
  refine ⟨hh, fun hm => ?_⟩
  unfold todoWebhookEndpoint
  rw [hh]
  simp [hm, todoWebhookMethods]

/-- Witness for C7's amended claim: a POST with `?validationToken=abc123`. -/
theorem todo_webhook_validation_echo_witness :
    todoWebhookHandler ⟨true, none⟩ ⟨⟨[], [], lc "L", lc "T"⟩, ⟨1⟩⟩
        ⟨HttpMethod.POST, some (lc "abc123"), none⟩ =
      (⟨200, some (lc "abc123"), some (lc "text/plain")⟩,
       ⟨⟨[], [], lc "L", lc "T"⟩, ⟨1⟩⟩, []) ∧
    todoWebhookEndpoint ⟨true, none⟩ ⟨⟨[], [], lc "L", lc "T"⟩, ⟨1⟩⟩
        ⟨HttpMethod.POST, some (lc "abc123"), none⟩ =
      some (⟨200, some (lc "abc123"), some (lc "text/plain")⟩,
        ⟨⟨[], [], lc "L", lc "T"⟩, ⟨1⟩⟩, []) :=
  ⟨(todo_webhook_validation_echo _ _ _ _ rfl).1,
   (todo_webhook_validation_echo _ _ _ _ rfl).2 rfl⟩

/-- Helper for C8: whatever the no-cache-hit path returns satisfies the
buffer invariant, provided any refresh grant's lifetime exceeds twice the
buffer. -/
theorem getTokensNoCacheHit_buffer (env : TokenEnv) (now : Int)
    (oracle : Option RefreshResponse) (cache : Option TokenData)
    (hor : ∀ r, oracle = some r →
      600000 < (if r.expiresIn == 0 then 3600 else r.expiresIn) * 1000)
    (tok : TokenData)
    (htok : (getTokensNoCacheHit env now oracle cache).1 = some tok) :
    now < tok.expiresAt - TOKEN_REFRESH_BUFFER_MS := by
  unfold getTokensNoCacheHit at htok
  split at htok
  · rename_i hcond
    simp only [Bool.and_eq_true, decide_eq_true_eq] at hcond
    simp only [Prod.fst] at htok
    injection htok with htok'
    subst htok'
    exact hcond.2
  · split at htok
    · unfold refreshAccessToken at htok
      split at htok
      · simp at htok
      · split at htok
        · simp at htok
        · rename_i _ r horacle
          simp only [Prod.fst] at htok
          injection htok with htok'
          subst htok'
          have hb := hor horacle rfl
          simp only [TOKEN_REFRESH_BUFFER_MS]
          omega
    · simp at htok

/-- C8 (amended): `getTokens` returns the cached credential unchanged while
`now < expiresAt − buffer`; with no valid cached or environment token and no
refresh token it returns `null`; and every returned credential satisfies
`now < expiresAt − buffer` provided any refresh grant's lifetime exceeds
2 × the 5-minute buffer (the 3600 s default does) — a freshly refreshed
credential with a shorter grant violates the invariant (see the
counterexample). -/
theorem get_tokens_lifecycle (env : TokenEnv) (now : Int)
    (oracle : Option RefreshResponse) (cache : Option TokenData) :
    (∀ c, cache = some c → now < c.expiresAt - TOKEN_REFRESH_BUFFER_MS →
        getTokens env now oracle cache = (some c, some c)) ∧
    ((∀ c, cache = some c → ¬(now < c.expiresAt - TOKEN_REFRESH_BUFFER_MS)) →
      (strTruthy env.msAccessToken && !(env.msExpiresAt == 0)
        && decide (now < env.msExpiresAt - TOKEN_REFRESH_BUFFER_MS)) = false →
      env.msRefreshToken = [] →
      (∀ c, cache = some c → c.refreshToken = []) →
      getTokens env now oracle cache = (none, cache)) ∧
    ((∀ r, oracle = some r →
        600000 < (if r.expiresIn == 0 then 3600 else r.expiresIn) * 1000) →
      ∀ tok, (getTokens env now oracle cache).1 = some tok →
        now < tok.expiresAt - TOKEN_REFRESH_BUFFER_MS) := by
  refine ⟨?_, ?_, ?_⟩
  · intro c hc hlt
    subst hc
    simp only [getTokens]
    rw [if_pos hlt]
  · intro hcache henv hrt hcrt
    have hrtof : refreshTokenOf env cache = [] := by
      unfold refreshTokenOf
      rw [hrt]
      cases cache with
      | none => simp [strTruthy]
      | some c => simp [strTruthy, hcrt c rfl]
    cases cache with
    | none =>
      simp only [getTokens]
      unfold getTokensNoCacheHit
      rw [if_neg (by rw [henv]; simp), hrtof]
      simp [strTruthy]
    | some c =>
      simp only [getTokens]
      rw [if_neg (hcache c rfl)]
      unfold getTokensNoCacheHit
      rw [if_neg (by rw [henv]; simp), hrtof]
      simp [strTruthy]
  · intro hor tok htok
    cases cache with
    | none =>
      simp only [getTokens] at htok
      exact getTokensNoCacheHit_buffer env now oracle none hor tok htok
    | some c =>
      simp only [getTokens] at htok
      by_cases hlt : now < c.expiresAt - TOKEN_REFRESH_BUFFER_MS
      · rw [if_pos hlt] at htok
        simp only [Prod.fst] at htok
        injection htok with htok'
        subst htok'
        exact hlt
      · rw [if_neg hlt] at htok
        exact getTokensNoCacheHit_buffer env now oracle (some c) hor tok htok

/-- C8 counterexample: a refresh grant of 60 s (allowed by the code, which
defaults only a missing `expires_in`) yields a credential whose recorded
expiry is already inside — indeed before — the buffer window, yet it is
returned. -/
theorem get_tokens_refresh_within_buffer :
    getTokens ⟨[], lc "r", 0, lc "cid", lc "sec"⟩ 1000000
        (some ⟨lc "at", lc "r2", 60⟩) none =
      (some ⟨lc "at", lc "r2", 760000⟩, some ⟨lc "at", lc "r2", 760000⟩) ∧
    ¬((1000000 : Int) < 760000 - TOKEN_REFRESH_BUFFER_MS) := by
  constructor
  · decide
  · decide

/-- Witness for C8's amended claim: a valid cached credential is returned
unchanged, and with nothing available at all the result is `null`. -/
theorem get_tokens_lifecycle_witness :
    getTokens ⟨[], [], 0, lc "cid", lc "sec"⟩ 0 none
        (some ⟨lc "a", lc "r", 1000000⟩) =
      (some ⟨lc "a", lc "r", 1000000⟩, some ⟨lc "a", lc "r", 1000000⟩) ∧
    getTokens ⟨[], [], 0, lc "cid", lc "sec"⟩ 0 none none = (none, none) :=
  ⟨(get_tokens_lifecycle _ _ _ _).1 _ rfl (by decide),
   (get_tokens_lifecycle _ _ _ _).2.1 (fun c hc => by simp at hc) (by decide) rfl
     (fun c hc => by simp at hc)⟩

-- ── Support lemmas for the To Do webhook claims ──────────────────────────────

/-- The list a resource refers to (if present in the state) has no parent
group — the claim's "task list has no parent list group". -/
def entryUnmapped (st : TodoState) (resource : Str) : Prop :=
  ∀ l ∈ st.lists, extractListId resource = some l.id → l.groupId = none

/-- Inverse structural resolution fails on an unmapped list. -/
theorem resolver_null_of_unmapped (st : TodoState) (resource lid : Str)
    (hun : entryUnmapped st resource) (hex : extractListId resource = some lid) :
    (resolveOwnerRepoFromList st lid).1 = none := by
  unfold resolveOwnerRepoFromList
  cases hf : st.lists.find? (fun l => l.id == lid) with
  | none => simp [hf]
  | some l =>
    have hmem := List.mem_of_find?_eq_some hf
    have hid : l.id = lid := by simpa using List.find?_some hf
    have hg : l.groupId = none := hun l hmem (by rw [hid]; exact hex)
    simp [hf, hg]

/-- Inverse structural resolution performs only reads. -/
theorem resolver_no_create (st : TodoState) (lid o r t b : Str) :
    Effect.createIssue o r t b ∉ (resolveOwnerRepoFromList st lid).2 := by
  unfold resolveOwnerRepoFromList
  split
  · simp
  · split
    · simp
    · split
      · simp
      · simp

/-- Processing one entry never creates a GitHub issue when the entry's list
is unmapped. -/
theorem processNotification_no_create (env : TodoWebhookEnv) (st : WebhookState)
    (n : GraphNotification) (hun : entryUnmapped st.todo n.resource)
    (o r t b : Str) :
    Effect.createIssue o r t b ∉ (processNotification env st n).2 := by
  intro hmem
  unfold processNotification at hmem
  split at hmem
  · simp at hmem
  · split at hmem
    · simp at hmem
    · split at hmem
      · simp at hmem
      · split at hmem
        · simp at hmem
        · split at hmem
          · simp at hmem
          · split at hmem
            · simp at hmem
            · rename_i lid hex
              split at hmem
              · rename_i effs heq
                simp at hmem
                rw [show effs = (resolveOwnerRepoFromList st.todo lid).2 from by
                      rw [heq]] at hmem
                exact absurd hmem (resolver_no_create st.todo lid o r t b)
              · rename_i pair own rep effs heq
                have hnull := resolver_null_of_unmapped st.todo n.resource lid hun hex
                rw [heq] at hnull
                simp at hnull

/-- Replacing a task body preserves every list's id and group assignment. -/
theorem updateTaskBody_pairs (st : TodoState) (lid tid nb : Str) :
    (updateTaskBody st lid tid nb).lists.map (fun l => (l.id, l.groupId)) =
      st.lists.map (fun l => (l.id, l.groupId)) := by
  unfold updateTaskBody
  rw [List.map_map]
  apply List.map_congr_left
  intro l _
  simp only [Function.comp]
  split <;> rfl

/-- Unmappedness transfers along equal (id, groupId) projections. -/
theorem entryUnmapped_of_pairs (A B : TodoState) (res : Str)
    (h : A.lists.map (fun l => (l.id, l.groupId)) =
      B.lists.map (fun l => (l.id, l.groupId)))
    (hun : entryUnmapped B res) : entryUnmapped A res := by
  intro l hl hex
  have hm : (l.id, l.groupId) ∈ B.lists.map (fun l => (l.id, l.groupId)) := by
    rw [← h]
    exact List.mem_map_of_mem _ hl
  obtain ⟨l', hl', hpair⟩ := List.mem_map.mp hm
  have h1 : l'.id = l.id := congrArg Prod.fst hpair
  have h2 : l'.groupId = l.groupId := congrArg Prod.snd hpair
  rw [← h2]
  exact hun l' hl' (by rw [h1]; exact hex)

/-- Processing one entry preserves unmappedness (it only edits task bodies,
never list/group structure). -/
theorem entryUnmapped_preserved (env : TodoWebhookEnv) (st : WebhookState)
    (n : GraphNotification) (res : Str) (hun : entryUnmapped st.todo res) :
    entryUnmapped (processNotification env st n).1.todo res := by
  unfold processNotification
  split
  · exact hun
  · split
    · exact hun
    · split
      · exact hun
      · split
        · exact hun
        · split
          · exact hun
          · split
            · exact hun
            · split
              · exact hun
              · exact entryUnmapped_of_pairs _ _ _ (updateTaskBody_pairs _ _ _ _) hun

/-- Batch processing never creates an issue for an unmapped entry, at
whatever position it sits and whatever the intermediate states are. -/
theorem processBatch_unmapped_no_create (env : TodoWebhookEnv) (res : Str) :
    ∀ (batch : List GraphNotification) (st : WebhookState) (i : Nat)
      (n : GraphNotification) (effs : List Effect),
      entryUnmapped st.todo res →
      batch.get? i = some n → n.resource = res →
      ((processBatch env st batch).2).get? i = some effs →
      ∀ o r t b, Effect.createIssue o r t b ∉ effs := by
  intro batch
  induction batch with
  | nil =>
    intro st i n effs _ hn
    simp [List.get?] at hn
  | cons m rest ih =>
    intro st i n effs hun hn hres heffs
    cases i with
    | zero =>
      have hn' : m = n := by injection hn
      subst hn'
      have heffs2 : some ((processNotification env st m).2) = some effs := heffs
      injection heffs2 with heffs3
      subst heffs3
      subst hres
      exact fun o r t b => processNotification_no_create env st m hun o r t b
    | succ j =>
      have hn' : rest.get? j = some n := hn
      have heffs2 :
          ((processBatch env (processNotification env st m).1 rest).2).get? j =
            some effs := heffs
      exact ih (processNotification env st m).1 j n effs
        (entryUnmapped_preserved env st m res hun) hn' hres heffs2

/-- C9: a `created` notification whose task list has no parent list group
resolves to `null`, its entry's processing performs no GitHub issue
creation, and the endpoint still acknowledges the whole batch with 202. -/
theorem unmapped_list_no_issue_creation (env : TodoWebhookEnv) (st : WebhookState)
    (req : TodoRequest) (batch : List GraphNotification) (i : Nat)
    (n : GraphNotification) (hv : req.validationToken = none)
    (hb : req.jsonBody = some batch) (hn : batch.get? i = some n)
    (hun : entryUnmapped st.todo n.resource) :
    (todoWebhookHandler env st req).1.status = 202 ∧
    (∀ lid, extractListId n.resource = some lid →
        (resolveOwnerRepoFromList st.todo lid).1 = none) ∧
    (∀ effs, ((todoWebhookHandler env st req).2.2).get? i = some effs →
        ∀ o r t b, Effect.createIssue o r t b ∉ effs) := by
  have hh : todoWebhookHandler env st req =
      (⟨202, none, none⟩, (processBatch env st batch).1,
       (processBatch env st batch).2) := by
    unfold todoWebhookHandler
    rw [hv, hb]
  refine ⟨by rw [hh],
    fun lid hex => resolver_null_of_unmapped st.todo n.resource lid hun hex, ?_⟩
  intro effs heffs
  rw [hh] at heffs
  exact processBatch_unmapped_no_create env n.resource batch st i n effs hun hn rfl heffs

/-- Concrete world for the C9 witness: one list `L1` with no parent group. -/
def c9State : WebhookState :=
  ⟨⟨[], [⟨lc "L1", lc "widgets", none,
      [⟨lc "T1", lc "t", [], lc "notStarted"⟩]⟩], lc "L9", lc "T9"⟩, ⟨1⟩⟩

/-- Concrete notification for the C9 witness. -/
def c9Notification : GraphNotification :=
  ⟨lc "n1", lc "created", none, lc "me/todo/lists/L1/tasks/T1"⟩

/-- Witness for C9: a single-entry batch whose list `L1` has no group. -/
theorem unmapped_list_no_issue_creation_witness :
    (todoWebhookHandler ⟨true, none⟩ c9State
        ⟨HttpMethod.POST, none, some [c9Notification]⟩).1.status = 202 ∧
    (resolveOwnerRepoFromList c9State.todo (lc "L1")).1 = none := by
  have hun : entryUnmapped c9State.todo c9Notification.resource := by
    intro l hl _
    simp [c9State] at hl
    rw [hl]
  have happ := unmapped_list_no_issue_creation ⟨true, none⟩ c9State
    ⟨HttpMethod.POST, none, some [c9Notification]⟩ [c9Notification] 0
    c9Notification rfl rfl rfl hun
  exact ⟨happ.1, happ.2.1 (lc "L1") (by decide)⟩

/-- Concrete payload for the C10 witness: a `closed` issues event. -/
def c10Payload : GHPayload := ⟨lc "closed", ⟨1, lc "t", lc "u", none⟩, none⟩

/-- Concrete Graph state for the C10 witness: one task linked to issue URL
`u`. -/
def c10State : TodoState :=
  ⟨[], [⟨lc "L", lc "repo", none, [⟨lc "T", lc "t", lc "u", lc "notStarted"⟩]⟩],
   lc "L9", lc "T9"⟩

/-- Witness for C10: a concrete `closed` event patches the linked task, and
the status it carries is not `inProgress`. -/
theorem github_sync_never_in_progress_witness :
    Effect.patchTaskStatus (lc "L") (lc "T") (lc "completed") ∈
      (githubWebhookHandler ⟨none⟩ (fun _ => some c10Payload) c10State
        ⟨[], none, some (lc "issues")⟩).2.2 ∧
    (lc "completed" : Str) ≠ lc "inProgress" := by
  have hmem : Effect.patchTaskStatus (lc "L") (lc "T") (lc "completed") ∈
      (githubWebhookHandler ⟨none⟩ (fun _ => some c10Payload) c10State
        ⟨[], none, some (lc "issues")⟩).2.2 := by decide
  exact ⟨hmem, github_sync_never_in_progress.2.2.2 _ _ _ _ _ _ _ hmem⟩

/-- A fetched task keeps its id from the resource path, and re-fetching
after the handler's body `PATCH` sees exactly the new body. -/
theorem fetchTask_update (st : TodoState) (L T nb : Str) (task : TaskEntry)
    (hL : L ≠ []) (hL2 : ∀ c ∈ L, c ≠ '/') (hT : T ≠ []) (hT2 : ∀ c ∈ T, c ≠ '/')
    (hf : fetchTask st (lc "me/todo/lists/" ++ L ++ lc "/tasks/" ++ T) = some task) :
    task.id = T ∧
    fetchTask (updateTaskBody st L task.id nb)
        (lc "me/todo/lists/" ++ L ++ lc "/tasks/" ++ T) =
      some { task with body := nb } := by
  have hp := parseTaskResource_concat L T hL hL2 hT hT2
  unfold fetchTask at hf
  rw [hp] at hf
  simp only [Option.some_bind] at hf
  cases hfind : st.lists.find? (fun l => l.id == L) with
  | none =>
    rw [show (fun l : TaskListE => l.id == (L, T).1) = fun l : TaskListE => l.id == L
        from rfl] at hf
    rw [hfind] at hf
    simp at hf
  | some l =>
    rw [show (fun l : TaskListE => l.id == (L, T).1) = fun l : TaskListE => l.id == L
        from rfl] at hf
    rw [hfind] at hf
    simp only [Option.some_bind] at hf
    have hlid := List.find?_some hfind
    have htid := List.find?_some hf
    have htid' : task.id = T := by simpa using htid
    refine ⟨htid', ?_⟩
    unfold fetchTask updateTaskBody
    rw [hp]
    simp only [Option.some_bind]
    rw [show (fun l_1 : TaskListE => l_1.id == (L, T).1) =
        fun l_1 : TaskListE => l_1.id == L from rfl]
    rw [List.find?_map]
    rw [show ((fun l_1 : TaskListE => l_1.id == L) ∘ fun l_1 =>
        if l_1.id == L then
          { l_1 with tasks := l_1.tasks.map (fun t =>
              if t.id == task.id then { t with body := nb } else t) }
        else l_1) = fun l_1 : TaskListE => l_1.id == L from by
      funext x
      simp only [Function.comp]
      split <;> rfl]
    rw [hfind]
    simp only [Option.map_some', Option.some_bind]
    rw [if_pos hlid]
    simp only []
    rw [List.find?_map]
    rw [show ((fun t : TaskEntry => t.id == (L, T).2) ∘ fun t =>
        if t.id == task.id then { t with body := nb } else t) =
        fun t : TaskEntry => t.id == T from by
      funext x
      simp only [Function.comp]
      split <;> rfl]
    rw [hf]
    simp only [Option.map_some']
    rw [if_pos (by simp)]

/-- C3: embedding then detecting round-trips — a body with the canonical
issue URL appended is always detected as linked — and consequently, after a
first successful processing of a `created` notification (issue created,
back-reference written), processing the identical notification again takes
the already-linked early return: it re-fetches the task, performs no second
issue creation, and leaves the world unchanged. -/
theorem issue_link_roundtrip_idempotent
    (b owner repo numr : Str) (c0 : Char)
    (hO : owner ≠ []) (hO2 : ∀ c ∈ owner, c ≠ '/')
    (hR : repo ≠ []) (hR2 : ∀ c ∈ repo, c ≠ '/')
    (hd : c0.isDigit = true)
    (env : TodoWebhookEnv) (st : WebhookState) (n : GraphNotification)
    (L T : Str) (task : TaskEntry) (gO gR : Str)
    (hres : n.resource = lc "me/todo/lists/" ++ L ++ lc "/tasks/" ++ T)
    (hL : L ≠ []) (hL2 : ∀ c ∈ L, c ≠ '/') (hT : T ≠ []) (hT2 : ∀ c ∈ T, c ≠ '/')
    (hct : n.changeType = lc "created") (htok : env.hasGithubToken = true)
    (hcs : clientStateMismatch env n = false)
    (hfetch : fetchTask st.todo n.resource = some task)
    (hnl : hasGitHubIssueLink task.body = false)
    (hrov : (resolveOwnerRepoFromList st.todo L).1 = some (gO, gR))
    (hgO : gO ≠ []) (hgO2 : ∀ c ∈ gO, c ≠ '/')
    (hgR : gR ≠ []) (hgR2 : ∀ c ∈ gR, c ≠ '/') :
    hasGitHubIssueLink (appendIssueLink b
      (lc "https://github.com/" ++ owner ++ lc "/" ++ repo ++
        lc "/issues/" ++ (c0 :: numr))) = true ∧
    Effect.createIssue gO gR task.title (buildIssueBodyFromTask (some task.body)) ∈
      (processNotification env st n).2 ∧
    processNotification env (processNotification env st n).1 n =
      ((processNotification env st n).1, [Effect.fetchTask n.resource]) := by
  have hgoal1 := hasLink_append b owner repo numr c0 hO hO2 hR hR2 hd
  have hex : extractListId n.resource = some L := by
    rw [hres]
    exact extractListId_concat L T hL hL2
  obtain ⟨effsR, hrfull⟩ :
      ∃ effs, resolveOwnerRepoFromList st.todo L = (some (gO, gR), effs) :=
    ⟨(resolveOwnerRepoFromList st.todo L).2, by rw [← hrov]⟩
  have hupd := fetchTask_update st.todo L T
    (appendIssueLink task.body (issueHtmlUrl gO gR st.github.nextIssueNumber)) task
    hL hL2 hT hT2 (by rw [← hres]; exact hfetch)
  have hrun1 : processNotification env st n =
      (⟨updateTaskBody st.todo L task.id
          (appendIssueLink task.body (issueHtmlUrl gO gR st.github.nextIssueNumber)),
        ⟨st.github.nextIssueNumber + 1⟩⟩,
       Effect.fetchTask n.resource :: effsR ++
         [Effect.createIssue gO gR task.title (buildIssueBodyFromTask (some task.body)),
          Effect.patchTaskBody L task.id
            (appendIssueLink task.body (issueHtmlUrl gO gR st.github.nextIssueNumber))]) := by
    unfold processNotification
    rw [hct]
    simp only [beq_self_eq_true, Bool.not_true, Bool.false_eq_true, if_false,
      htok, hcs, hfetch, hnl, hex, hrfull]
  have hlinknew : hasGitHubIssueLink
      (appendIssueLink task.body (issueHtmlUrl gO gR st.github.nextIssueNumber)) = true := by
    obtain ⟨hne, hdig⟩ := natDigits_spec st.github.nextIssueNumber
    cases hnd : natDigits st.github.nextIssueNumber with
    | nil => exact absurd hnd hne
    | cons d ds =>
      have hd' : d.isDigit = true := hdig d (by rw [hnd]; simp)
      have := hasLink_append task.body gO gR ds d hgO hgO2 hgR hgR2 hd'
      unfold issueHtmlUrl
      rw [hnd]
      exact this
  have hfetch2 : fetchTask (updateTaskBody st.todo L task.id
      (appendIssueLink task.body (issueHtmlUrl gO gR st.github.nextIssueNumber)))
      n.resource = some ⟨task.id, task.title,
        appendIssueLink task.body (issueHtmlUrl gO gR st.github.nextIssueNumber),
        task.status⟩ := by
    rw [hres]
    exact hupd.2
  have hrun2 : processNotification env
      (⟨updateTaskBody st.todo L task.id
          (appendIssueLink task.body (issueHtmlUrl gO gR st.github.nextIssueNumber)),
        ⟨st.github.nextIssueNumber + 1⟩⟩ : WebhookState) n =
      (⟨updateTaskBody st.todo L task.id
          (appendIssueLink task.body (issueHtmlUrl gO gR st.github.nextIssueNumber)),
        ⟨st.github.nextIssueNumber + 1⟩⟩,
       [Effect.fetchTask n.resource]) := by
    unfold processNotification
    simp only [hct, htok, hcs, hfetch2, hlinknew, beq_self_eq_true,
      Bool.not_true, Bool.false_eq_true, if_false]
    rw [if_pos trivial]
  refine ⟨hgoal1, ?_, ?_⟩
  · rw [hrun1]
    simp
  · rw [hrun1]
    exact hrun2

/-- Concrete world for the C3 witness: list `L1` (named `widgets`) inside
group `g1` (named `acme`), holding one unlinked task `T1`. -/
def c3State : WebhookState :=
  ⟨⟨[⟨lc "g1", lc "acme"⟩],
    [⟨lc "L1", lc "widgets", some (lc "g1"),
      [⟨lc "T1", lc "title", [], lc "notStarted"⟩]⟩],
    lc "L9", lc "T9"⟩, ⟨5⟩⟩

/-- Concrete notification for the C3 witness. -/
def c3Notification : GraphNotification :=
  ⟨lc "n1", lc "created", some (lc "sec"), lc "me/todo/lists/L1/tasks/T1"⟩

/-- Concrete app settings for the C3 witness. -/
def c3Env : TodoWebhookEnv := ⟨true, some (lc "sec")⟩

/-- Witness for C3: a concrete first processing creates the issue and a
second identical processing only re-fetches the task. -/
theorem issue_link_roundtrip_idempotent_witness :
    hasGitHubIssueLink (appendIssueLink (lc "body")
      (lc "https://github.com/" ++ lc "acme" ++ lc "/" ++ lc "widgets" ++
        lc "/issues/" ++ lc "5")) = true ∧
    Effect.createIssue (lc "acme") (lc "widgets") (lc "title")
        (buildIssueBodyFromTask (some [])) ∈
      (processNotification c3Env c3State c3Notification).2 ∧
    processNotification c3Env
        (processNotification c3Env c3State c3Notification).1 c3Notification =
      ((processNotification c3Env c3State c3Notification).1,
       [Effect.fetchTask c3Notification.resource]) :=
  issue_link_roundtrip_idempotent (lc "body") (lc "acme") (lc "widgets") [] '5'
    (by decide) (by decide) (by decide) (by decide) (by decide)
    c3Env c3State c3Notification (lc "L1") (lc "T1")
    ⟨lc "T1", lc "title", [], lc "notStarted"⟩ (lc "acme") (lc "widgets")
    (by decide) (by decide) (by decide) (by decide) (by decide)
    (by decide) (by decide) (by decide) (by decide) (by decide)
    (by decide) (by decide) (by decide) (by decide) (by decide)
